import Mathlib

/-!
Shallow embedding of the sqlite-clone reader (Rust sources under src/):
the varint codec (src/database.rs), the serial-type decoder (src/value.rs),
the page reader (src/page.rs), the cell decoders (src/cell.rs), the B-tree
traversal (src/btree.rs), the schema catalog (src/schema.rs) and the query
executor (src/query.rs).

Bytes are modelled as `Nat` normalised modulo 256 at every use site that
reads a `u8` in Rust (so a `List Nat` stands for a Rust byte slice).
Rust panics (out-of-bounds indexing / slicing, `unwrap` on `None`,
explicit `panic!`) are modelled as the error results of the `Res` monad;
a diverging Rust loop is modelled by the `diverged` error, and the
unbounded recursion of `traverse` is given explicit fuel, with `fuelOut`
standing for a recursion deeper than the fuel allows.
-/

set_option maxRecDepth 100000

namespace SqliteClone

/-- The ways the embedded code can fail: `outOfBounds` models a Rust
out-of-bounds index or slice panic, `unknownTypeCode` the explicit
`panic!("Unknown type code")`, `unwrapFailed` an `unwrap` on `None`,
`diverged` a loop the Rust code would never exit, and `fuelOut` recursion
beyond the supplied fuel. -/
inductive Err where
  | outOfBounds
  | unknownTypeCode
  | unwrapFailed
  | diverged
  | fuelOut
  | unsupportedPage
  deriving DecidableEq, Repr

/-- Result monad for the embedding: `ok` is a normal Rust return, `err`
a panic (or missing fuel). -/
inductive Res (α : Type) where
  | ok : α → Res α
  | err : Err → Res α
  deriving DecidableEq, Repr

instance : Monad Res where
  pure := Res.ok
  bind x f := match x with
    | .ok a => f a
    | .err e => .err e

/-- Map over a successful result. -/
def rmap {α β : Type} (f : α → β) : Res α → Res β
  | .ok a => .ok (f a)
  | .err e => .err e

@[simp] lemma ok_bind {α β : Type} (a : α) (f : α → Res β) :
    (Res.ok a >>= f) = f a := rfl

@[simp] lemma err_bind {α β : Type} (e : Err) (f : α → Res β) :
    ((Res.err e : Res α) >>= f) = Res.err e := rfl

@[simp] lemma rmap_ok {α β : Type} (f : α → β) (a : α) :
    rmap f (Res.ok a) = Res.ok (f a) := rfl

@[simp] lemma rmap_err {α β : Type} (f : α → β) (e : Err) :
    rmap f (Res.err e : Res α) = Res.err e := rfl

@[simp] lemma res_bind_assoc {α β γ : Type} (x : Res α) (f : α → Res β) (g : β → Res γ) :
    ((x >>= f) >>= g) = x >>= fun a => f a >>= g := by
  cases x with
  | ok a => rfl
  | err e => rfl

/-- Rust `slice[i]` on a byte slice: the byte (reduced mod 256, modelling
`u8`), or a panic when out of bounds. -/
def idx (l : List Nat) (i : Nat) : Res Nat :=
  match l.get? i with
  | some b => .ok (b % 256)
  | none => .err .outOfBounds

/-- Rust `&slice[i..]`: panics when `i` exceeds the slice length. -/
def sliceFrom (l : List Nat) (i : Nat) : Res (List Nat) :=
  if i ≤ l.length then .ok (l.drop i) else .err .outOfBounds

/-- Big-endian value of a byte list (each byte reduced mod 256), as in
`uN::from_be_bytes`. -/
def beNat (bytes : List Nat) : Nat :=
  bytes.foldl (fun a b => a * 256 + b % 256) 0

/-- Two's-complement reading of `v` as a signed integer of `bits` bits,
as in Rust's `iN` reinterpretation of `uN`. -/
def signed (bits : Nat) (v : Nat) : Int :=
  if v < 2 ^ (bits - 1) then (v : Int) else (v : Int) - 2 ^ bits

/-! ## Varint codec — `parse_varint` in src/database.rs.

The Rust loop iterates over `bytes.iter().take(9)`, accumulating
`value = value << 7 | (byte & 0x7F)` on a `u64` and stopping after the
first byte whose bit 7 is clear.  It cannot fail: on a slice with no
terminating byte it simply returns the value accumulated so far. -/

/-- Loop body of `parse_varint`: `value` and `bytes_read` are the Rust
mutable locals; the list is the (at most 9 byte) iteration source. -/
def parseVarintGo : List Nat → Nat → Nat → Nat × Nat
  | [], value, bytesRead => (value, bytesRead)
  | b :: rest, value, bytesRead =>
    let value' := (value * 128 + b % 256 % 128) % 2 ^ 64
    if b % 256 < 128 then (value', bytesRead + 1)
    else parseVarintGo rest value' (bytesRead + 1)

/-- `parse_varint` (src/database.rs, lines 31–86): decode the big-endian
base-128 varint from the front of `bytes`, returning the value and the
number of bytes consumed.  Total: it never fails. -/
def parse_varint (bytes : List Nat) : Nat × Nat :=
  parseVarintGo (bytes.take 9) 0 0

/-! ## UTF-8 lossy decoding — `String::from_utf8_lossy`.

Faithful to Rust: each maximal valid prefix of an invalid sequence is
replaced by one U+FFFD, and decoding resumes at the first offending
byte; an incomplete sequence at the end of input also yields one
U+FFFD. -/

/-- Is this byte a UTF-8 continuation byte (`0x80..=0xBF`)? -/
def isCont (b : Nat) : Bool := 128 ≤ b && b ≤ 191

/-- The replacement character U+FFFD. -/
def replChar : Char := Char.ofNat 0xFFFD

/-- UTF-8 decoding with replacement on bytes already reduced mod 256,
following Rust's `from_utf8_lossy` (maximal-subpart replacement).  The
fuel argument only forces termination: each step consumes at least one
byte, so any fuel at least the list length gives the untruncated
decoding. -/
def utf8DecGo : Nat → List Nat → List Char
  | 0, _ => []
  | _, [] => []
  | fuel + 1, b :: t =>
    if b ≤ 0x7F then Char.ofNat b :: utf8DecGo fuel t
    else if b < 0xC2 then replChar :: utf8DecGo fuel t
    else if b ≤ 0xDF then
      match t with
      | [] => [replChar]
      | b1 :: t1 =>
        if isCont b1 then Char.ofNat ((b % 32) * 64 + b1 % 64) :: utf8DecGo fuel t1
        else replChar :: utf8DecGo fuel t
    else if b ≤ 0xEF then
      match t with
      | [] => [replChar]
      | b1 :: t1 =>
        if (if b = 0xE0 then 0xA0 ≤ b1 && b1 ≤ 0xBF
            else if b = 0xED then 0x80 ≤ b1 && b1 ≤ 0x9F
            else isCont b1) then
          match t1 with
          | [] => [replChar]
          | b2 :: t2 =>
            if isCont b2 then
              Char.ofNat ((b % 16) * 4096 + (b1 % 64) * 64 + b2 % 64) :: utf8DecGo fuel t2
            else replChar :: utf8DecGo fuel t1
        else replChar :: utf8DecGo fuel t
    else if b ≤ 0xF4 then
      match t with
      | [] => [replChar]
      | b1 :: t1 =>
        if (if b = 0xF0 then 0x90 ≤ b1 && b1 ≤ 0xBF
            else if b = 0xF4 then 0x80 ≤ b1 && b1 ≤ 0x8F
            else isCont b1) then
          match t1 with
          | [] => [replChar]
          | b2 :: t2 =>
            if isCont b2 then
              match t2 with
              | [] => [replChar]
              | b3 :: t3 =>
                if isCont b3 then
                  Char.ofNat ((b % 8) * 262144 + (b1 % 64) * 4096 + (b2 % 64) * 64 + b3 % 64)
                    :: utf8DecGo fuel t3
                else replChar :: utf8DecGo fuel t2
            else replChar :: utf8DecGo fuel t1
        else replChar :: utf8DecGo fuel t
    else replChar :: utf8DecGo fuel t

/-- `String::from_utf8_lossy` on a Rust byte slice modelled as raw Nats. -/
def utf8Lossy (bytes : List Nat) : List Char :=
  utf8DecGo bytes.length (bytes.map (· % 256))

/-! ## Typed values and the serial-type decoder — src/value.rs. -/

/-- `Value` (src/value.rs).  `Float` carries the IEEE-754 bit pattern of
the `f64` (the Rust code only ever reinterprets the 8 big-endian bytes,
so the bit pattern determines the value exactly); `Text` carries the
decoded characters. -/
inductive Value where
  | Null : Value
  | Integer : Int → Value
  | Float : Nat → Value
  | Text : List Char → Value
  | Blob : List Nat → Value
  deriving DecidableEq, Repr

/-- `Value::as_text` (src/value.rs). -/
def Value.as_text : Value → Option (List Char)
  | .Text s => some s
  | _ => none

/-- `Value::as_integer` (src/value.rs). -/
def Value.as_integer : Value → Option Int
  | .Integer i => some i
  | _ => none

/-- `parse_type_code` (src/value.rs, lines 41–92): decode one column
value from its serial type code and the slice positioned at its bytes,
returning the value and the width consumed.  Array indexing and the
`data[..len]` slices panic (`outOfBounds`) exactly when the slice is too
short; codes 10 and 11 hit the `panic!("Unknown type code")` arm. -/
def parse_type_code (typeCode : Nat) (data : List Nat) : Res (Value × Nat) :=
  match typeCode with
  | 0 => .ok (.Null, 0)
  | 1 => do
    let b0 ← idx data 0
    .ok (.Integer (signed 8 b0), 1)
  | 2 => do
    let b0 ← idx data 0
    let b1 ← idx data 1
    .ok (.Integer (signed 16 (beNat [b0, b1])), 2)
  | 3 => do
    let b0 ← idx data 0
    let b1 ← idx data 1
    let b2 ← idx data 2
    .ok (.Integer (signed 32 (beNat [0, b0, b1, b2])), 3)
  | 4 => do
    let b0 ← idx data 0
    let b1 ← idx data 1
    let b2 ← idx data 2
    let b3 ← idx data 3
    .ok (.Integer (signed 32 (beNat [b0, b1, b2, b3])), 4)
  | 5 => do
    let b0 ← idx data 0
    let b1 ← idx data 1
    let b2 ← idx data 2
    let b3 ← idx data 3
    let b4 ← idx data 4
    let b5 ← idx data 5
    .ok (.Integer (signed 64 (beNat [0, 0, b0, b1, b2, b3, b4, b5])), 6)
  | 6 => do
    let b0 ← idx data 0
    let b1 ← idx data 1
    let b2 ← idx data 2
    let b3 ← idx data 3
    let b4 ← idx data 4
    let b5 ← idx data 5
    let b6 ← idx data 6
    let b7 ← idx data 7
    .ok (.Integer (signed 64 (beNat [b0, b1, b2, b3, b4, b5, b6, b7])), 8)
  | 7 => do
    let b0 ← idx data 0
    let b1 ← idx data 1
    let b2 ← idx data 2
    let b3 ← idx data 3
    let b4 ← idx data 4
    let b5 ← idx data 5
    let b6 ← idx data 6
    let b7 ← idx data 7
    .ok (.Float (beNat [b0, b1, b2, b3, b4, b5, b6, b7]), 8)
  | 8 => .ok (.Integer 0, 0)
  | 9 => .ok (.Integer 1, 0)
  | n =>
    if 12 ≤ n ∧ n % 2 = 0 then
      let len := (n - 12) / 2
      if len ≤ data.length then .ok (.Blob ((data.take len).map (· % 256)), len)
      else .err .outOfBounds
    else if 13 ≤ n ∧ n % 2 = 1 then
      let len := (n - 13) / 2
      if len ≤ data.length then .ok (.Text (utf8Lossy (data.take len)), len)
      else .err .outOfBounds
    else .err .unknownTypeCode

/-! ## Page reader — src/page.rs.  The file is a `List Nat` of bytes. -/

/-- `Page` (src/page.rs): the raw page bytes, the type byte, the cell
count and the header offset (100 on page 1, else 0). -/
structure Page where
  data : List Nat
  page_type : Nat
  num_cells : Nat
  offset : Nat
  deriving DecidableEq, Repr

/-- `Page::read` (src/page.rs, lines 25–55): seek to
`(page_num − 1) * page_size`, read exactly `page_size` bytes (a short
read panics), then read the cell count at header offset +3..+4 and the
type byte at the header offset.  `page_num` is a `u32` whose
`page_num - 1` underflows (panics) at 0. -/
def Page.read (file : List Nat) (page_num : Nat) (page_size : Nat) : Res Page := do
  if page_num = 0 then .err .outOfBounds else do
  let off := (page_num - 1) * page_size
  if off + page_size ≤ file.length then do
    let data := (file.drop off).take page_size
    let offset := if page_num = 1 then 100 else 0
    let b3 ← idx data (offset + 3)
    let b4 ← idx data (offset + 4)
    let pt ← idx data offset
    .ok { data := data, page_type := pt, num_cells := b3 * 256 + b4, offset := offset }
  else .err .outOfBounds

/-- `Page::is_leaf` (src/page.rs, lines 57–59): true for the leaf-table
(0x0D) and leaf-index (0x0A) type bytes. -/
def Page.is_leaf (p : Page) : Bool :=
  p.page_type = 0x0D || p.page_type = 0x0A

/-- `Page::cell_pointer` (src/page.rs, lines 61–76): the i-th big-endian
16-bit entry of the cell-pointer array, whose base is the header offset
plus 8 (leaf) or 12 (interior). -/
def Page.cell_pointer (p : Page) (i : Nat) : Res Nat := do
  let base := p.offset + (if p.is_leaf then 8 else 12) + i * 2
  let b0 ← idx p.data base
  let b1 ← idx p.data (base + 1)
  .ok (b0 * 256 + b1)

/-- Modelled from the spec: `Page::rightmost_child` is called by
`traverse` (src/btree.rs, line 26) but its definition is not under
src/; per §4.5 of the spec the rightmost-child page number is "read
from the fixed 4-byte field immediately after the page-type byte and
before the cell-pointer array, at the page's header offset +8", which
matches the concrete read in src/main.rs, lines 56–57. -/
def Page.rightmost_child (p : Page) : Res Nat := do
  let b0 ← idx p.data (p.offset + 8)
  let b1 ← idx p.data (p.offset + 9)
  let b2 ← idx p.data (p.offset + 10)
  let b3 ← idx p.data (p.offset + 11)
  .ok (beNat [b0, b1, b2, b3])

/-! ## Record decoder — src/cell.rs. -/

/-- `Cell` (src/cell.rs): an interior cell, a child page number and the
largest row id under it. -/
structure Cell where
  child_page_number : Nat
  rowid : Nat
  deriving DecidableEq, Repr

/-- `Row` (src/cell.rs): a row id and the decoded column values. -/
structure Row where
  rowid : Nat
  values : List Value
  deriving DecidableEq, Repr

/-- `parse_interior_cell` (src/cell.rs, lines 9–28): a 4-byte big-endian
child page number at the cell offset, then a row-id varint. -/
def parse_interior_cell (index : Nat) (page : List Nat) : Res Cell := do
  let b0 ← idx page index
  let b1 ← idx page (index + 1)
  let b2 ← idx page (index + 2)
  let b3 ← idx page (index + 3)
  let rest ← sliceFrom page (index + 4)
  .ok { child_page_number := beNat [b0, b1, b2, b3], rowid := (parse_varint rest).1 }

/-- The `while offset < header_size` loop of `parse_leaf_cell`: read
serial type codes until `header_size` bytes of record header are
consumed.  `parse_varint` consumes at least one byte whenever its input
is nonempty, so fuel `header_size` is always enough; an empty remainder
makes the Rust loop spin forever, modelled by `diverged`. -/
def typeCodesGo (page : List Nat) (payloadStart : Nat) : Nat → Nat → Nat → Res (List Nat)
  | 0, offset, headerSize =>
    if offset < headerSize then .err .diverged else .ok []
  | fuel + 1, offset, headerSize =>
    if offset < headerSize then do
      let rest ← sliceFrom page (payloadStart + offset)
      let (typeCode, n) := parse_varint rest
      if n = 0 then .err .diverged
      else do
        let more ← typeCodesGo page payloadStart fuel (offset + n) headerSize
        .ok (typeCode :: more)
    else .ok []

/-- The `for type_code in type_codes` loop of `parse_leaf_cell`: decode
each column value, advancing by the consumed width. -/
def valuesGo (page : List Nat) : List Nat → Nat → Res (List Value)
  | [], _ => .ok []
  | typeCode :: rest, valuesOffset => do
    let slice ← sliceFrom page valuesOffset
    let (value, size) ← parse_type_code typeCode slice
    let more ← valuesGo page rest (valuesOffset + size)
    .ok (value :: more)

/-- `parse_leaf_cell` (src/cell.rs, lines 81–120): payload-size varint,
row-id varint, header-size varint, the serial type codes, then one value
per type code starting at `payload_start + header_size`. -/
def parse_leaf_cell (pointer : Nat) (page : List Nat) : Res Row := do
  let s0 ← sliceFrom page pointer
  let (_payloadSize, payloadBytesRead) := parse_varint s0
  let s1 ← sliceFrom page (pointer + payloadBytesRead)
  let (rowid, rowidBytesRead) := parse_varint s1
  let payloadStart := pointer + payloadBytesRead + rowidBytesRead
  let s2 ← sliceFrom page payloadStart
  let (headerSize, headerBytesRead) := parse_varint s2
  let typeCodes ← typeCodesGo page payloadStart headerSize headerBytesRead headerSize
  let values ← valuesGo page typeCodes (payloadStart + headerSize)
  .ok { rowid := rowid, values := values }

/-! ## B-tree traversal — src/btree.rs. -/

/-- The leaf branch of `traverse`: parse cells `i, i+1, ...` (the
counter `k` is the number still to parse) in cell-pointer order. -/
def leafRowsGo (p : Page) : Nat → Nat → Res (List Row)
  | _, 0 => .ok []
  | i, k + 1 => do
    let ptr ← p.cell_pointer i
    let row ← parse_leaf_cell ptr p.data
    let rest ← leafRowsGo p (i + 1) k
    .ok (row :: rest)

/-- The interior-cell loop of `traverse`: for cells `i, i+1, ...` (with
`k` still to go), parse the interior cell and traverse its child with
`tr` — the traversal at the remaining fuel — threading the row
accumulator. -/
def childrenGo (tr : Nat → List Row → Res (List Row)) (p : Page) :
    Nat → Nat → List Row → Res (List Row)
  | _, 0, rows => .ok rows
  | i, k + 1, rows => do
    let ptr ← p.cell_pointer i
    let cell ← parse_interior_cell ptr p.data
    let rows1 ← tr cell.child_page_number rows
    childrenGo tr p (i + 1) k rows1

/-- `traverse` (src/btree.rs, lines 10–28): read the page; on a leaf,
push each cell's row in cell-pointer order; otherwise recurse into each
cell's child page in stored order and finally into the rightmost child.
`rows` is the `&mut Vec<Row>` accumulator; the fuel bounds the unbounded
Rust recursion. -/
def traverse (file : List Nat) (page_size : Nat) :
    Nat → Nat → List Row → Res (List Row)
  | 0, _, _ => .err .fuelOut
  | fuel + 1, page_num, rows => do
    let p ← Page.read file page_num page_size
    if p.is_leaf then do
      let cells ← leafRowsGo p 0 p.num_cells
      .ok (rows ++ cells)
    else do
      let rows1 ← childrenGo (traverse file page_size fuel) p 0 p.num_cells rows
      let rm ← p.rightmost_child
      traverse file page_size fuel rm rows1

/-! ## String helpers for the schema/query layers.

Rust `str` operations are modelled on `List Char`; `char::is_whitespace`
is the Unicode White_Space property. -/

/-- Rust `char::is_whitespace`: the Unicode White_Space code points. -/
def rustIsWs (c : Char) : Bool :=
  c.toNat = 0x09 || c.toNat = 0x0A || c.toNat = 0x0B || c.toNat = 0x0C ||
  c.toNat = 0x0D || c.toNat = 0x20 || c.toNat = 0x85 || c.toNat = 0xA0 ||
  c.toNat = 0x1680 || (0x2000 ≤ c.toNat && c.toNat ≤ 0x200A) ||
  c.toNat = 0x2028 || c.toNat = 0x2029 || c.toNat = 0x202F ||
  c.toNat = 0x205F || c.toNat = 0x3000

/-- Rust `str::trim`: drop whitespace from both ends. -/
def trimChars (l : List Char) : List Char :=
  ((l.dropWhile rustIsWs).reverse.dropWhile rustIsWs).reverse

/-- Rust `str::split(',')`: split at every comma, keeping empty pieces. -/
def splitComma (l : List Char) : List (List Char) :=
  l.foldr
    (fun c acc =>
      if c = ',' then [] :: acc
      else
        match acc with
        | [] => [[c]]
        | cur :: rest => (c :: cur) :: rest)
    [[]]

/-- Rust `str::split_whitespace().next()`: the first maximal run of
non-whitespace characters, if any. -/
def firstToken (l : List Char) : Option (List Char) :=
  match l.dropWhile rustIsWs with
  | [] => none
  | c :: t => some ((c :: t).takeWhile (fun x => !rustIsWs x))

/-- Worker for `splitWs`; the fuel (initially the length) only forces
termination, each round consuming at least one character. -/
def splitWsGo : Nat → List Char → List (List Char)
  | 0, _ => []
  | fuel + 1, l =>
    match l.dropWhile rustIsWs with
    | [] => []
    | c :: t =>
      let tok := (c :: t).takeWhile (fun x => !rustIsWs x)
      tok :: splitWsGo fuel ((c :: t).drop tok.length)

/-- Rust `str::split_whitespace().collect()`: the maximal runs of
non-whitespace characters, in order. -/
def splitWs (l : List Char) : List (List Char) :=
  splitWsGo l.length l

/-- Rust `str::find(char)`: index of the first occurrence. -/
def firstIdx (c : Char) : List Char → Option Nat
  | [] => none
  | x :: t => if x = c then some 0 else (firstIdx c t).map (· + 1)

/-- Rust `str::rfind(char)`: index of the last occurrence. -/
def lastIdx (c : Char) (l : List Char) : Option Nat :=
  (firstIdx c l.reverse).map (fun i => l.length - 1 - i)

/-! ## Schema catalog — src/schema.rs. -/

/-- `Table` (src/schema.rs): name, root page (an `i64`), ordered
column names. -/
structure Table where
  name : List Char
  rootpage : Int
  column_names : List (List Char)
  deriving DecidableEq, Repr

/-- Rust `vec[i]` on a value list: panics out of bounds. -/
def vGet (vs : List Value) (i : Nat) : Res Value :=
  match vs[i]? with
  | some v => .ok v
  | none => .err .outOfBounds

/-- Rust `Option::unwrap` on `as_text()`. -/
def unwrapText (v : Value) : Res (List Char) :=
  match v.as_text with
  | some s => .ok s
  | none => .err .unwrapFailed

/-- Rust `Option::unwrap` on `as_integer()`. -/
def unwrapInt (v : Value) : Res Int :=
  match v.as_integer with
  | some i => .ok i
  | none => .err .unwrapFailed

/-- The constraint-keyword filter of `parse_column_names` (the Rust
closure over `starts_with`): true when the segment starts with none of
FOREIGN, PRIMARY, UNIQUE, CHECK. -/
def keywordFree (seg : List Char) : Bool :=
  !(("FOREIGN".toList).isPrefixOf seg ||
    ("PRIMARY".toList).isPrefixOf seg ||
    ("UNIQUE".toList).isPrefixOf seg ||
    ("CHECK".toList).isPrefixOf seg)

/-- `parse_column_names` (src/schema.rs, lines 38–59): take the text
between the first `(` and the last `)` (the `unwrap`s panic when either
is absent and the slice panics when start exceeds end), split on commas,
trim, drop empty segments, drop constraint segments, and keep the first
whitespace-delimited word of each remaining segment. -/
def parse_column_names (s : List Char) : Res (List (List Char)) :=
  match firstIdx '(' s with
  | none => .err .unwrapFailed
  | some a =>
    match lastIdx ')' s with
    | none => .err .unwrapFailed
    | some b =>
      if a + 1 ≤ b then
        let inner := (s.drop (a + 1)).take (b - (a + 1))
        .ok (((((splitComma inner).map trimChars).filter
                (fun seg => !seg.isEmpty)).filter keywordFree).filterMap firstToken)
      else .err .outOfBounds

/-- `parse_tables` (src/schema.rs, lines 12–36), applied to the already
traversed catalog rows: for each row, look at the fifth value; when it
is text, extract the column names from it, then record a `Table` when
the first value (which must be text, else the `unwrap` panics) equals

`"table"`, taking the name from the second value and the root page from
the fourth. -/
def parse_tables : List Row → Res (List Table)
  | [] => .ok []
  | row :: rest => do
    let v4 ← vGet row.values 4
    match v4.as_text with
    | none => parse_tables rest
    | some ts => do
      let cols ← parse_column_names ts
      let v0 ← vGet row.values 0
      let t0 ← unwrapText v0
      if t0 = "table".toList then do
        let v1 ← vGet row.values 1
        let nm ← unwrapText v1
        let v3 ← vGet row.values 3
        let rp ← unwrapInt v3
        let more ← parse_tables rest
        .ok ({ name := nm, rootpage := rp, column_names := cols } :: more)
      else parse_tables rest

/-! ## Query executor — src/query.rs. -/

/-- Rust `iter().position(|s| *s == t)` on the token list. -/
def positionOf (t : List Char) : List (List Char) → Option Nat
  | [] => none
  | x :: rest => if x = t then some 0 else (positionOf t rest).map (· + 1)

/-- Rust `vec[i]` on the token list: panics out of bounds. -/
def pGet (parts : List (List Char)) (i : Nat) : Res (List Char) :=
  match parts[i]? with
  | some x => .ok x
  | none => .err .outOfBounds

/-- `execute` (src/query.rs, lines 3–31): split the query on whitespace;
`SELECT`/`FROM` positions default to 0 when absent; the tokens right
after them are read with unchecked indexing; only a bare `*` projection
over a known table triggers a traversal of the table's root page
(`rootpage as u32` truncates the `i64`), everything else yields empty
columns and rows. -/
def execute (file : List Nat) (page_size : Nat) (tables : List Table)
    (query : List Char) (fuel : Nat) : Res (List (List Char) × List Row) := do
  let parts := splitWs query
  let select_start_index := (positionOf ("SELECT".toList) parts).getD 0
  let from_index := (positionOf ("FROM".toList) parts).getD 0
  let table_name ← pGet parts (from_index + 1)
  let condition ← pGet parts (select_start_index + 1)
  if condition = "*".toList then
    match tables.find? (fun t => t.name == table_name) with
    | some t => do
      let rows ← traverse file page_size fuel ((t.rootpage % (2 : Int) ^ 32).toNat) []
      .ok (t.column_names, rows)
    | none => .ok ([], [])
  else .ok ([], [])

/-! ## Spec-side definitions.

These follow the words of the specification sentences under test, to be
compared with the embedded code; they are deliberately written from the
spec, not from the source. -/

/-- Spec-side leaf rows: "a leaf page's rows are its cells in
cell-pointer order", "the i-th cell's offset is the i-th big-endian
16-bit entry of the cell-pointer array based at header offset plus 8
for leaf pages". -/
def specLeafGo (p : Page) : Nat → Nat → Res (List Row)
  | _, 0 => .ok []
  | i, k + 1 => do
    let b0 ← idx p.data (p.offset + 8 + i * 2)
    let b1 ← idx p.data (p.offset + 8 + i * 2 + 1)
    let row ← parse_leaf_cell (b0 * 256 + b1) p.data
    let rest ← specLeafGo p (i + 1) k
    .ok (row :: rest)

/-- Spec-side interior children: "the concatenation of the traversals of
its child cells in stored order", the i-th cell offset being the i-th
big-endian 16-bit entry of the array based at header offset plus 12, and
the child page number the 4-byte big-endian field at the cell offset;
`rs` is the spec-side traversal at the remaining fuel. -/
def specChildrenGo (rs : Nat → Res (List Row)) (p : Page) : Nat → Nat → Res (List Row)
  | _, 0 => .ok []
  | i, k + 1 => do
    let b0 ← idx p.data (p.offset + 12 + i * 2)
    let b1 ← idx p.data (p.offset + 12 + i * 2 + 1)
    let ptr := b0 * 256 + b1
    let c0 ← idx p.data ptr
    let c1 ← idx p.data (ptr + 1)
    let c2 ← idx p.data (ptr + 2)
    let c3 ← idx p.data (ptr + 3)
    let r1 ← rs (beNat [c0, c1, c2, c3])
    let rest ← specChildrenGo rs p (i + 1) k
    .ok (r1 ++ rest)

/-- Spec-side row sequence of the subtree rooted at a page, defined
recursively per the claim: a leaf table page (type byte 0x0D) yields its
cells in cell-pointer order; an interior table page (0x05) yields the
concatenation of its children's traversals in stored order followed by
the traversal of the rightmost-child page number read from the 4-byte
big-endian field at the page's header offset +8.  Pages of any other
type are outside the claim's domain. -/
def rowsSpec (file : List Nat) (page_size : Nat) : Nat → Nat → Res (List Row)
  | 0, _ => .err .fuelOut
  | fuel + 1, page_num => do
    let p ← Page.read file page_num page_size
    if p.page_type = 0x0D then specLeafGo p 0 p.num_cells
    else if p.page_type = 0x05 then do
      let kids ← specChildrenGo (rowsSpec file page_size fuel) p 0 p.num_cells
      let b0 ← idx p.data (p.offset + 8)
      let b1 ← idx p.data (p.offset + 9)
      let b2 ← idx p.data (p.offset + 10)
      let b3 ← idx p.data (p.offset + 11)
      let rm ← rowsSpec file page_size fuel (beNat [b0, b1, b2, b3])
      .ok (kids ++ rm)
    else .err .unsupportedPage

/-- Claim C7's column-name pipeline on the text between the
parentheses: split on commas, trim each segment, discard segments
beginning with a constraint keyword, and keep the first
whitespace-delimited token of each remaining segment, in order (no
separate dropping of empty segments). -/
def claimCols (inner : List Char) : List (List Char) :=
  (((splitComma inner).map trimChars).filter keywordFree).filterMap firstToken

/-- Claim-side column-name extraction (claim C7's words): the substring
between the first `(` and the last `)`, fed through `claimCols`; `none`
when the parentheses are absent or cross. -/
def claimColumnNames (s : List Char) : Option (List (List Char)) :=
  match firstIdx '(' s, lastIdx ')' s with
  | some a, some b =>
    if a + 1 ≤ b then some (claimCols ((s.drop (a + 1)).take (b - (a + 1))))
    else none
  | _, _ => none

/-- Claim-side catalog entry of one row (the amended claim C7): a row
whose fifth value is text and whose first value is the text `"table"`
records a `Table` with name the second value, root page the fourth, and
the column names of `claimColumnNames`; any other row records none. -/
def claimTableOf (row : Row) : Option Table :=
  match row.values[4]? with
  | some (Value.Text s) =>
    match row.values[0]? with
    | some (Value.Text t0) =>
      if t0 = "table".toList then
        match row.values[1]?, row.values[3]?, claimColumnNames s with
        | some (Value.Text nm), some (Value.Integer rp), some cols =>
          some { name := nm, rootpage := rp, column_names := cols }
        | _, _, _ => none
      else none
    | _ => none
  | _ => none

/-- The well-formedness a catalog row needs for `parse_tables` not to
panic on it: at least five values; when the fifth is text it must
contain a `(` not after the last `)` and the first value must be text,
and a `"table"` row must carry a text name and an integer root page. -/
def rowOk (row : Row) : Bool :=
  5 ≤ row.values.length &&
  match row.values[4]? with
  | some (Value.Text s) =>
    (match firstIdx '(' s, lastIdx ')' s with
     | some a, some b => a + 1 ≤ b
     | _, _ => false) &&
    (match row.values[0]? with
     | some (Value.Text t0) =>
       !(t0 = "table".toList) ||
         ((row.values[1]?).any (fun v => v.as_text.isSome) &&
          (row.values[3]?).any (fun v => v.as_integer.isSome))
     | _ => false)
  | _ => true

/-! ## Concrete fixtures used by counterexamples and witnesses. -/

/-- A 512-byte single-page file whose page-1 type byte (at the header
offset 100) is 0x0A, the leaf-index kind. -/
def indexPageFile : List Nat :=
  ((((List.replicate 512 0).set 100 0x0A).set 103 0).set 104 0)

/-- A three-page file (page size 512): page 1 is an interior table page
with one cell pointing at page 2 and rightmost child page 3; pages 2
and 3 are leaf table pages holding one row each (row 1 ↦ [Integer 7],
row 2 ↦ [Integer 9]). -/
def treeFile : List Nat :=
  [(100, 0x05), (104, 1), (111, 3), (113, 200), (203, 2), (204, 5),
   (512, 0x0D), (516, 1), (520, 1), (521, 44),
   (812, 3), (813, 1), (814, 2), (815, 1), (816, 7),
   (1024, 0x0D), (1028, 1), (1032, 1), (1033, 44),
   (1324, 3), (1325, 2), (1326, 2), (1327, 1), (1328, 9)].foldl
    (fun l u => l.set u.1 u.2) (List.replicate 1536 0)

/-! ## Spec-side varint characterisation. -/

/-- Number of bytes a varint decode consumes from this iteration source:
one past the first byte with a clear continuation bit, or everything
when no byte terminates. -/
def varintLenGo : List Nat → Nat
  | [] => 0
  | b :: t => if b % 256 < 128 then 1 else 1 + varintLenGo t

/-- Bytes consumed by `parse_varint`: as `varintLenGo`, capped at 9. -/
def varintLen (bytes : List Nat) : Nat := varintLenGo (bytes.take 9)

/-- The value accumulated from the low 7 bits of each byte,
most-significant group first, on a 64-bit accumulator. -/
def varintValue (bytes : List Nat) : Nat :=
  bytes.foldl (fun a b => (a * 128 + b % 256 % 128) % 2 ^ 64) 0

/-- The big-endian two's-complement signed integer stored in a byte
list, its width being the length of the list. -/
def twosComp (bytes : List Nat) : Int := signed (8 * bytes.length) (beNat bytes)

lemma varintLenGo_le_length (l : List Nat) : varintLenGo l ≤ l.length := by
  induction l with
  | nil => simp [varintLenGo]
  | cons b t ih =>
    by_cases hb : b % 256 < 128
    · simp [varintLenGo, hb]
    · simp only [varintLenGo, hb, if_false, List.length_cons]
      omega

lemma parseVarintGo_eq (l : List Nat) : ∀ v n, parseVarintGo l v n =
    (List.foldl (fun a b => (a * 128 + b % 256 % 128) % 2 ^ 64) v (l.take (varintLenGo l)),
     n + varintLenGo l) := by
  induction l with
  | nil => intro v n; simp [parseVarintGo, varintLenGo]
  | cons b t ih =>
    intro v n
    by_cases hb : b % 256 < 128
    · simp [parseVarintGo, varintLenGo, hb]
    · simp only [parseVarintGo, varintLenGo, hb, if_false, ih]
      rw [add_comm 1 (varintLenGo t), List.take_succ_cons, List.foldl_cons]
      simp only [Prod.mk.injEq]
      exact ⟨trivial, by omega⟩

lemma parse_varint_eq (bytes : List Nat) :
    parse_varint bytes = (varintValue (bytes.take (varintLen bytes)), varintLen bytes) := by
  have h := parseVarintGo_eq (bytes.take 9) 0 0
  have hle : varintLenGo (bytes.take 9) ≤ 9 :=
    le_trans (varintLenGo_le_length _) (by simp [List.length_take_le])
  rw [parse_varint, h, varintValue, varintLen, List.take_take, min_eq_left hle]
  simp

/-! ## Frame property of the traversal accumulator. -/

lemma childrenGo_frame (tr : Nat → List Row → Res (List Row))
    (htr : ∀ pn rows, tr pn rows = rmap (rows ++ ·) (tr pn [])) (p : Page) :
    ∀ k i rows, childrenGo tr p i k rows = rmap (rows ++ ·) (childrenGo tr p i k []) := by
  intro k
  induction k with
  | zero => intro i rows; simp [childrenGo]
  | succ k ih =>
    intro i rows
    simp only [childrenGo]
    cases p.cell_pointer i with
    | err e => simp
    | ok ptr =>
      simp only [ok_bind]
      cases parse_interior_cell ptr p.data with
      | err e => simp
      | ok cell =>
        simp only [ok_bind]
        rw [htr cell.child_page_number rows]
        cases tr cell.child_page_number [] with
        | err e => simp
        | ok t =>
          simp only [rmap_ok, ok_bind]
          rw [ih (i + 1) (rows ++ t), ih (i + 1) t]
          cases childrenGo tr p (i + 1) k [] with
          | err e => simp
          | ok u => simp

/-- Frame lemma: the rows accumulated by a traversal are exactly the
initial accumulator followed by the rows of the subtree. -/
lemma traverse_frame (file : List Nat) (ps : Nat) : ∀ fuel pn rows,
    traverse file ps fuel pn rows = rmap (rows ++ ·) (traverse file ps fuel pn []) := by
  intro fuel
  induction fuel with
  | zero => intro pn rows; simp [traverse]
  | succ fuel ih =>
    intro pn rows
    simp only [traverse]
    cases Page.read file pn ps with
    | err e => simp
    | ok p =>
      simp only [ok_bind]
      cases hleaf : p.is_leaf with
      | true =>
        rw [if_pos rfl, if_pos rfl]
        cases leafRowsGo p 0 p.num_cells with
        | err e => simp
        | ok cells => simp
      | false =>
        rw [if_neg Bool.false_ne_true, if_neg Bool.false_ne_true]
        rw [childrenGo_frame (traverse file ps fuel) ih p p.num_cells 0 rows]
        cases childrenGo (traverse file ps fuel) p 0 p.num_cells [] with
        | err e => simp
        | ok c =>
          simp only [rmap_ok, ok_bind]
          cases p.rightmost_child with
          | err e => simp
          | ok rm =>
            simp only [ok_bind]
            rw [ih rm (rows ++ c), ih rm c]
            cases traverse file ps fuel rm [] with
            | err e => simp
            | ok t => simp

/-! ## The traversal agrees with its spec-side recursive definition. -/

lemma bind_eq_ok {α β : Type} (x : Res α) (f : α → Res β) (b : β) :
    (x >>= f) = .ok b ↔ ∃ a, x = .ok a ∧ f a = .ok b := by
  cases x with
  | ok a => simp
  | err e => simp

lemma idx_lt_of_ok {l : List Nat} {i b : Nat} (h : idx l i = .ok b) : i < l.length := by
  unfold idx at h
  cases hg : l.get? i with
  | none => rw [hg] at h; exact absurd h (by simp)
  | some x => exact List.get?_eq_some.mp hg |>.1

lemma is_leaf_of_type_5 {p : Page} (h : p.page_type = 0x05) : p.is_leaf = false := by
  simp [Page.is_leaf, h]

lemma leafRowsGo_eq_spec {p : Page} (h : p.page_type = 0x0D) :
    ∀ k i, leafRowsGo p i k = specLeafGo p i k := by
  have hleaf : p.is_leaf = true := by simp [Page.is_leaf, h]
  intro k
  induction k with
  | zero => intro i; rfl
  | succ k ih =>
    intro i
    simp only [leafRowsGo, specLeafGo, Page.cell_pointer, hleaf, eq_self_iff_true,
      if_true, ih, res_bind_assoc]
    cases idx p.data (p.offset + 8 + i * 2) with
    | err e => simp
    | ok b0 => cases idx p.data (p.offset + 8 + i * 2 + 1) <;> simp

lemma specChildrenGo_agree (tr : Nat → List Row → Res (List Row))
    (rs : Nat → Res (List Row))
    (hrec : ∀ pn s, rs pn = .ok s → ∀ rows, tr pn rows = .ok (rows ++ s))
    (p : Page) (hp : p.is_leaf = false) :
    ∀ k i s, specChildrenGo rs p i k = .ok s →
      ∀ rows, childrenGo tr p i k rows = .ok (rows ++ s) := by
  intro k
  induction k with
  | zero =>
    intro i s h rows
    simp only [specChildrenGo] at h
    obtain rfl : ([] : List Row) = s := by simpa using h
    simp [childrenGo]
  | succ k ih =>
    intro i s h rows
    simp only [specChildrenGo, bind_eq_ok] at h
    obtain ⟨b0, hb0, b1, hb1, c0, hc0, c1, hc1, c2, hc2, c3, hc3, r1, hr1, rest, hrest, hs⟩ := h
    obtain rfl : r1 ++ rest = s := by simpa using hs
    have hptr : p.cell_pointer i = .ok (b0 * 256 + b1) := by
      simp [Page.cell_pointer, hp, hb0, hb1]
    have hslice : sliceFrom p.data (b0 * 256 + b1 + 4) =
        .ok (p.data.drop (b0 * 256 + b1 + 4)) := by
      have h4 := idx_lt_of_ok hc3
      have hle : b0 * 256 + b1 + 4 ≤ p.data.length := by omega
      simp only [sliceFrom, if_pos hle]
    have hcell : parse_interior_cell (b0 * 256 + b1) p.data =
        .ok { child_page_number := beNat [c0, c1, c2, c3],
              rowid := (parse_varint (p.data.drop (b0 * 256 + b1 + 4))).1 } := by
      simp [parse_interior_cell, hc0, hc1, hc2, hc3, hslice]
    simp only [childrenGo, hptr, ok_bind, hcell]
    rw [hrec _ r1 hr1 rows]
    simp only [ok_bind]
    rw [ih (i + 1) rest hrest (rows ++ r1)]
    simp [List.append_assoc]

lemma rowsSpec_traverse (file : List Nat) (ps : Nat) : ∀ fuel pn s,
    rowsSpec file ps fuel pn = .ok s →
    ∀ rows, traverse file ps fuel pn rows = .ok (rows ++ s) := by
  intro fuel
  induction fuel with
  | zero =>
    intro pn s h
    exact absurd h (by simp [rowsSpec])
  | succ fuel ih =>
    intro pn s h rows
    simp only [rowsSpec, bind_eq_ok] at h
    obtain ⟨p, hread, h⟩ := h
    simp only [traverse, hread, ok_bind]
    by_cases h13 : p.page_type = 0x0D
    · rw [if_pos h13] at h
      have hleaf : p.is_leaf = true := by simp [Page.is_leaf, h13]
      rw [hleaf, if_pos rfl, leafRowsGo_eq_spec h13, h]
      simp
    · rw [if_neg h13] at h
      by_cases h5 : p.page_type = 0x05
      · rw [if_pos h5] at h
        simp only [bind_eq_ok] at h
        obtain ⟨kids, hkids, b0, hb0, b1, hb1, b2, hb2, b3, hb3, rmrows, hrm, hs⟩ := h
        obtain rfl : kids ++ rmrows = s := by simpa using hs
        have hleaf : p.is_leaf = false := is_leaf_of_type_5 h5
        rw [hleaf, if_neg Bool.false_ne_true]
        rw [specChildrenGo_agree (traverse file ps fuel) (rowsSpec file ps fuel) ih p hleaf
          p.num_cells 0 kids hkids rows]
        have hrmc : p.rightmost_child = .ok (beNat [b0, b1, b2, b3]) := by
          simp [Page.rightmost_child, hb0, hb1, hb2, hb3]
        rw [ok_bind, hrmc, ok_bind, ih _ rmrows hrm (rows ++ kids)]
        simp
      · rw [if_neg h5] at h
        exact absurd h (by simp)

/-! ## Claim theorems. -/

/-- Claim C1 (code bug): the type decoder does NOT sign-extend the
3-byte (code 3) and 6-byte (code 5) widths.  At the failing inputs of
all-0xFF bytes — two's-complement −1, which the claim says must decode
to the negative 64-bit integer −1 — the code returns the zero-extended
positive values 16777215 and 281474976710655.  (Codes 1, 2 and 4 do
sign-extend; the source's own TODO at src/value.rs line 58 admits code 5
"currently only supports positive integers".) -/
theorem c1_no_sign_extension_codes_3_and_5 :
    parse_type_code 3 [0xFF, 0xFF, 0xFF] = .ok (.Integer 16777215, 3)
    ∧ parse_type_code 5 [0xFF, 0xFF, 0xFF, 0xFF, 0xFF, 0xFF] =
        .ok (.Integer 281474976710655, 6)
    ∧ parse_type_code 1 [0xFF] = .ok (.Integer (-1), 1)
    ∧ parse_type_code 2 [0xFF, 0xFF] = .ok (.Integer (-1), 2)
    ∧ parse_type_code 4 [0xFF, 0xFF, 0xFF, 0xFF] = .ok (.Integer (-1), 4) := by
  refine ⟨?_, ?_, ?_, ?_, ?_⟩ <;> decide

/-- Claim C4 (counterexample): on the empty slice — an input shorter
than the bytes needed to reach a byte with a clear continuation bit —
`parse_varint` does not fail with `TruncatedVarint`: it has no failure
path at all and returns the value 0 with 0 bytes consumed. -/
theorem c4_counterexample_empty_input_returns :
    parse_varint [] = (0, 0) ∧ parse_varint [0x80] = (0, 1) := by decide

/-- Claim C4 (amended): for every input slice shorter than 9 bytes all
of whose bytes have the continuation bit set (including the empty
slice), the varint decoder does not fail — no `TruncatedVarint` error
exists — and instead returns the value accumulated from the 7-bit
groups of all its bytes, consuming the whole slice. -/
theorem c4_truncated_varint_returns_partial_value (bytes : List Nat)
    (h9 : bytes.length < 9) (hc : ∀ b ∈ bytes, 128 ≤ b % 256) :
    parse_varint bytes = (varintValue bytes, bytes.length) := by
  have hlen : varintLenGo bytes = bytes.length := by
    induction bytes with
    | nil => simp [varintLenGo]
    | cons b t ih =>
      have hb : 128 ≤ b % 256 := hc b (by simp)
      have ht : varintLenGo t = t.length := by
        apply ih
        · simpa using Nat.lt_of_succ_lt h9
        · intro x hx; exact hc x (by simp [hx])
      simp [varintLenGo, ht, Nat.not_lt.mpr hb]
      omega
  have htake : bytes.take 9 = bytes := List.take_of_length_le (by omega)
  have h := parse_varint_eq bytes
  rw [varintLen, htake, hlen, List.take_of_length_le (le_refl _)] at h
  exact h

/-- Claim C4 (amended, witness): the single-byte all-continuation input
`[0x80]` is consumed whole and decodes to the partial value 0. -/
theorem c4_truncated_varint_witness : parse_varint [0x80] = (0, 1) := by
  have h := c4_truncated_varint_returns_partial_value [0x80] (by decide) (by decide)
  exact h.trans (by decide)

/-- Claim C5: the varint decoder returns the accumulated unsigned
64-bit value of exactly the consumed bytes together with the exact
number of bytes consumed, which never exceeds 9 (nor the input length);
`[0x00]` decodes to (0, 1) and `[0x81, 0x80, 0x00]` to (16384, 3). -/
theorem c5_varint_value_and_consumed (bytes : List Nat) :
    parse_varint bytes = (varintValue (bytes.take (varintLen bytes)), varintLen bytes)
    ∧ (parse_varint bytes).2 ≤ 9
    ∧ (parse_varint bytes).2 ≤ bytes.length
    ∧ parse_varint [0x00] = (0, 1)
    ∧ parse_varint [0x81, 0x80, 0x00] = (16384, 3) := by
  have h := parse_varint_eq bytes
  have h9 : varintLen bytes ≤ 9 :=
    le_trans (varintLenGo_le_length _) (by simp [List.length_take_le])
  have hl : varintLen bytes ≤ bytes.length := by
    have := varintLenGo_le_length (bytes.take 9)
    have h2 : (bytes.take 9).length ≤ bytes.length := by
      simp [List.length_take]
    exact le_trans this h2
  exact ⟨h, by rw [h]; exact h9, by rw [h]; exact hl, by decide, by decide⟩

/-- Claim C6: the serial-type table for every code outside {3, 5}:
code 0 is Null of width 0; codes 1, 2, 4, 6 are the big-endian
two's-complement signed integers of widths 1, 2, 4, 8; code 7 is the
8-byte big-endian IEEE-754 double (here its bit pattern); codes 8 and 9
are the literal integers 0 and 1 of width 0; even codes ≥ 12 are Blobs
of (code−12)/2 bytes copied verbatim; odd codes ≥ 13 are Text of
(code−13)/2 bytes decoded as UTF-8 with replacement (never fatal); the
remaining codes 10 and 11 fail with the unknown-type-code error. -/
theorem c6_serial_type_table :
    (∀ data, parse_type_code 0 data = .ok (.Null, 0))
    ∧ (∀ b0 rest, parse_type_code 1 (b0 :: rest) = .ok (.Integer (twosComp [b0]), 1))
    ∧ (∀ b0 b1 rest, parse_type_code 2 (b0 :: b1 :: rest) =
        .ok (.Integer (twosComp [b0, b1]), 2))
    ∧ (∀ b0 b1 b2 b3 rest, parse_type_code 4 (b0 :: b1 :: b2 :: b3 :: rest) =
        .ok (.Integer (twosComp [b0, b1, b2, b3]), 4))
    ∧ (∀ b0 b1 b2 b3 b4 b5 b6 b7 rest,
        parse_type_code 6 (b0 :: b1 :: b2 :: b3 :: b4 :: b5 :: b6 :: b7 :: rest) =
        .ok (.Integer (twosComp [b0, b1, b2, b3, b4, b5, b6, b7]), 8))
    ∧ (∀ b0 b1 b2 b3 b4 b5 b6 b7 rest,
        parse_type_code 7 (b0 :: b1 :: b2 :: b3 :: b4 :: b5 :: b6 :: b7 :: rest) =
        .ok (.Float (beNat [b0, b1, b2, b3, b4, b5, b6, b7]), 8))
    ∧ (∀ data, parse_type_code 8 data = .ok (.Integer 0, 0))
    ∧ (∀ data, parse_type_code 9 data = .ok (.Integer 1, 0))
    ∧ (∀ n data, 12 ≤ n → n % 2 = 0 → (n - 12) / 2 ≤ data.length →
        parse_type_code n data =
          .ok (.Blob ((data.take ((n - 12) / 2)).map (· % 256)), (n - 12) / 2))
    ∧ (∀ n data, 13 ≤ n → n % 2 = 1 → (n - 13) / 2 ≤ data.length →
        parse_type_code n data =
          .ok (.Text (utf8Lossy (data.take ((n - 13) / 2))), (n - 13) / 2))
    ∧ (∀ data, parse_type_code 10 data = .err .unknownTypeCode)
    ∧ (∀ data, parse_type_code 11 data = .err .unknownTypeCode) := by
  refine ⟨fun data => rfl, ?_, ?_, ?_, ?_, ?_, fun data => rfl, fun data => rfl,
    ?_, ?_, fun data => rfl, fun data => rfl⟩
  · intro b0 rest
    simp [parse_type_code, idx, twosComp, beNat]
  · intro b0 b1 rest
    simp [parse_type_code, idx, twosComp, beNat]
  · intro b0 b1 b2 b3 rest
    simp [parse_type_code, idx, twosComp, beNat]
  · intro b0 b1 b2 b3 b4 b5 b6 b7 rest
    simp [parse_type_code, idx, twosComp, beNat]
  · intro b0 b1 b2 b3 b4 b5 b6 b7 rest
    simp [parse_type_code, idx, beNat]
  · intro n data h12 h2 hlen
    unfold parse_type_code
    split
    all_goals try omega
    rw [if_pos ⟨by omega, by omega⟩, if_pos (by omega)]
  · intro n data h13 h2 hlen
    unfold parse_type_code
    split
    all_goals try omega
    rw [if_neg (by omega), if_pos ⟨by omega, by omega⟩, if_pos (by omega)]

/-- Claim C9: `traverse` only ever appends to the row accumulator it is
handed: a successful traversal leaves the initial contents unchanged, in
order, and follows them with the rows of the traversed subtree. -/
theorem c9_traverse_only_appends (file : List Nat) (ps fuel pn : Nat) (rows r : List Row)
    (h : traverse file ps fuel pn rows = .ok r) :
    ∃ s, traverse file ps fuel pn [] = .ok s ∧ r = rows ++ s := by
  rw [traverse_frame] at h
  cases ht : traverse file ps fuel pn [] with
  | err e => rw [ht] at h; exact absurd h (by simp)
  | ok s =>
    rw [ht] at h
    simp only [rmap_ok, Res.ok.injEq] at h
    exact ⟨s, rfl, h.symm⟩

/-- Claim C9 (witness): traversing leaf page 2 of the concrete tree file
with a nonempty initial accumulator yields the initial row followed by
the page's row. -/
theorem c9_traverse_only_appends_witness :
    ∃ s, traverse treeFile 512 2 2 [] = .ok s ∧
      [⟨99, [.Null]⟩, ⟨1, [.Integer 7]⟩] = [(⟨99, [.Null]⟩ : Row)] ++ s :=
  c9_traverse_only_appends treeFile 512 2 2 [⟨99, [.Null]⟩]
    [⟨99, [.Null]⟩, ⟨1, [.Integer 7]⟩] (by decide)

/-- Claim C3: whenever the claim's recursive row-sequence definition
(`rowsSpec`: a leaf table page yields its cells in cell-pointer order
from the 16-bit big-endian entries based at header offset +8, NOT
resorted by row id; an interior table page yields its children's
traversals in stored order, the array based at header offset +12,
followed by the rightmost child read from the 4-byte big-endian field at
header offset +8) produces a row list, `traverse` produces exactly that
list appended to its accumulator. -/
theorem c3_traverse_row_order (file : List Nat) (ps fuel pn : Nat) (s : List Row)
    (h : rowsSpec file ps fuel pn = .ok s) (rows : List Row) :
    traverse file ps fuel pn rows = .ok (rows ++ s) :=
  rowsSpec_traverse file ps fuel pn s h rows

/-- Claim C3 (witness): on the concrete three-page tree the spec
recursion produces the two leaf rows — the page-2 row before the
rightmost page-3 row — and `traverse` returns them in that order. -/
theorem c3_traverse_row_order_witness :
    rowsSpec treeFile 512 2 1 = .ok [⟨1, [.Integer 7]⟩, ⟨2, [.Integer 9]⟩]
    ∧ traverse treeFile 512 2 1 [] = .ok [⟨1, [.Integer 7]⟩, ⟨2, [.Integer 9]⟩] := by
  have h : rowsSpec treeFile 512 2 1 = .ok [⟨1, [.Integer 7]⟩, ⟨2, [.Integer 9]⟩] := by
    decide
  exact ⟨h, c3_traverse_row_order treeFile 512 2 1 _ h []⟩

lemma idx_take_drop (file : List Nat) (off ps j : Nat) (hj : j < ps)
    (hlen : off + ps ≤ file.length) :
    idx ((file.drop off).take ps) j = .ok ((file.get? (off + j)).getD 0 % 256) := by
  unfold idx
  have h1 : ((file.drop off).take ps).get? j = file.get? (off + j) := by
    rw [List.get?_take hj, List.get?_drop]
  rw [h1]
  cases hg : file.get? (off + j) with
  | none =>
    have := List.get?_eq_none.mp hg
    omega
  | some b => simp [hg]

/-- Claim C2 (counterexample): a page whose type byte is 0x0A (the
leaf-index kind) is read without any error and classified as a LEAF, and
traversing it succeeds; no `UnsupportedPageType` failure exists anywhere
in the code. -/
theorem c2_counterexample_index_page_accepted :
    rmap Page.page_type (Page.read indexPageFile 1 512) = .ok 0x0A
    ∧ rmap Page.is_leaf (Page.read indexPageFile 1 512) = .ok true
    ∧ traverse indexPageFile 512 1 1 [] = .ok [] := by
  refine ⟨?_, ?_, ?_⟩ <;> decide

/-- Claim C2 (amended): the page reader performs no page-type
validation: whenever the file holds the addressed page and the page
holds its header fields, `Page::read` succeeds whatever the type byte
is, returning that byte verbatim, and `is_leaf` classifies exactly the
bytes 0x0D and 0x0A as leaf — every other byte (0x05, the index-interior
0x02 and all invalid bytes alike) goes down the interior path of
`traverse`. -/
theorem c2_no_page_type_validation (file : List Nat) (pn ps : Nat)
    (h0 : 1 ≤ pn) (hlen : (pn - 1) * ps + ps ≤ file.length)
    (hhdr : (if pn = 1 then 100 else 0) + 5 ≤ ps) :
    ∃ p, Page.read file pn ps = .ok p
      ∧ p.page_type = (file.get? ((pn - 1) * ps + (if pn = 1 then 100 else 0))).getD 0 % 256
      ∧ (p.is_leaf = true ↔ (p.page_type = 0x0D ∨ p.page_type = 0x0A)) := by
  have hpn0 : ¬pn = 0 := by omega
  have h3 : (if pn = 1 then 100 else 0) + 3 < ps := by omega
  have h4 : (if pn = 1 then 100 else 0) + 4 < ps := by omega
  have hh : (if pn = 1 then 100 else 0) < ps := by omega
  have hidx0 := idx_take_drop file ((pn - 1) * ps) ps _ hh hlen
  have hidx3 := idx_take_drop file ((pn - 1) * ps) ps _ h3 hlen
  have hidx4 := idx_take_drop file ((pn - 1) * ps) ps _ h4 hlen
  simp only [Page.read, hpn0, if_false, if_pos hlen, hidx0, hidx3, hidx4, ok_bind]
  refine ⟨_, rfl, rfl, ?_⟩
  simp [Page.is_leaf]

/-- Claim C2 (amended, witness): the concrete 0x0A page satisfies the
amended statement at page 1 with page size 512. -/
theorem c2_no_page_type_validation_witness :
    ∃ p, Page.read indexPageFile 1 512 = .ok p
      ∧ p.page_type = (indexPageFile.get? ((1 - 1) * 512 + (if 1 = 1 then 100 else 0))).getD 0 % 256
      ∧ (p.is_leaf = true ↔ (p.page_type = 0x0D ∨ p.page_type = 0x0A)) :=
  c2_no_page_type_validation indexPageFile 1 512 (by decide) (by decide) (by decide)

/-- Claim C6 (witness): concrete rows of the serial-type table — code 1
with byte 0x02 is Integer 2; code 23 with the five ASCII bytes of
"Alice" is Text "Alice"; code 300 with 144 data bytes is a Blob of
length 144; codes 10 and 11 are rejected. -/
theorem c6_serial_type_table_witness :
    parse_type_code 1 [0x02] = .ok (.Integer 2, 1)
    ∧ parse_type_code 23 [65, 108, 105, 99, 101] = .ok (.Text ("Alice".toList), 5)
    ∧ parse_type_code 300 (List.replicate 144 67) =
        .ok (.Blob (List.replicate 144 67), 144)
    ∧ parse_type_code 10 [0] = .err .unknownTypeCode := by
  obtain ⟨h0, h1, h2, h4, h6, h7, h8, h9, hblob, htext, h10, h11⟩ := c6_serial_type_table
  refine ⟨(h1 0x02 []).trans (by decide), ?_, ?_, h10 [0]⟩
  · exact (htext 23 [65, 108, 105, 99, 101] (by decide) (by decide) (by decide)).trans
      (by decide)
  · exact (hblob 300 (List.replicate 144 67) (by decide) (by decide) (by simp)).trans
      (by simp [List.take_of_length_le, List.map_eq_map_iff])

/-! ## Claim C7: the schema catalog builder. -/

lemma filterMap_firstToken_filter_empty (kf : List Char → Bool) (segs : List (List Char)) :
    ((segs.filter (fun seg => !seg.isEmpty)).filter kf).filterMap firstToken
      = (segs.filter kf).filterMap firstToken := by
  induction segs with
  | nil => rfl
  | cons seg rest ih =>
    by_cases he : seg.isEmpty
    · have hseg : seg = [] := by
        cases seg with
        | nil => rfl
        | cons c t => simp [List.isEmpty] at he
      subst hseg
      rw [List.filter_cons_of_neg (by decide)]
      cases hkf : kf [] with
      | false =>
        rw [List.filter_cons_of_neg (by simp [hkf])]
        exact ih
      | true =>
        rw [List.filter_cons_of_pos (by simp [hkf]), List.filterMap_cons]
        have hft : firstToken ([] : List Char) = none := rfl
        rw [hft]
        exact ih
    · rw [List.filter_cons_of_pos (by simp [he])]
      cases hkf : kf seg with
      | false =>
        rw [List.filter_cons_of_neg (by simp [hkf]), List.filter_cons_of_neg (by simp [hkf])]
        exact ih
      | true =>
        rw [List.filter_cons_of_pos (by simp [hkf]), List.filter_cons_of_pos (by simp [hkf]),
          List.filterMap_cons, List.filterMap_cons, ih]

lemma parse_column_names_eq_claim (s : List Char) (a b : Nat)
    (ha : firstIdx '(' s = some a) (hb : lastIdx ')' s = some b) (hab : a + 1 ≤ b) :
    parse_column_names s = .ok (claimCols ((s.drop (a + 1)).take (b - (a + 1)))) := by
  simp only [parse_column_names, ha, hb]
  rw [if_pos hab]
  unfold claimCols
  rw [filterMap_firstToken_filter_empty]

lemma claimColumnNames_eq (s : List Char) (a b : Nat)
    (ha : firstIdx '(' s = some a) (hb : lastIdx ')' s = some b) (hab : a + 1 ≤ b) :
    claimColumnNames s = some (claimCols ((s.drop (a + 1)).take (b - (a + 1)))) := by
  simp only [claimColumnNames, ha, hb]
  rw [if_pos hab]

/-- Claim C7 (counterexample): a catalog row whose FIRST value is the
text `"table"` but whose fifth value is not text (here Null) records NO
`Table` — the claim, which keys recording on the first value alone,
says this row set must record exactly one. -/
theorem c7_counterexample_table_row_without_text_schema :
    parse_tables [⟨1, [.Text ("table".toList), .Text ("t".toList),
      .Text ("t".toList), .Integer 2, .Null]⟩] = .ok [] := by decide

/-- Claim C7 (amended): over catalog rows that are well formed for the
builder (`rowOk`: at least five values; a text fifth value contains a
`(` not after the last `)` and comes with a text first value; a
`"table"` row carries a text name and integer root page), the builder
records one `Table` exactly for each row whose FIFTH value is text and
whose first value is the text `"table"` — name from the second value,
root page from the fourth, column names per the claim's
substring/split/trim/discard/first-token procedure — and every other
row (in particular any row whose fifth value is not text, whatever its
first value) records none. -/
theorem c7_parse_tables_catalog (rows : List Row) (h : ∀ row ∈ rows, rowOk row = true) :
    parse_tables rows = .ok (rows.filterMap claimTableOf) := by
  induction rows with
  | nil => rfl
  | cons row rest ih =>
    have hr : rowOk row = true := h row (List.mem_cons_self row rest)
    have hrest := ih (fun r hr2 => h r (List.mem_cons_of_mem _ hr2))
    simp only [rowOk, Bool.and_eq_true, decide_eq_true_eq] at hr
    obtain ⟨hlen, hmatch⟩ := hr
    obtain ⟨v4, hv4⟩ : ∃ v4, row.values[4]? = some v4 := by
      rw [List.getElem?_eq_getElem (by omega)]
      exact ⟨_, rfl⟩
    simp only [hv4] at hmatch
    have hstep : parse_tables (row :: rest) = (do
        let v4 ← vGet row.values 4
        match v4.as_text with
        | none => parse_tables rest
        | some ts => do
          let cols ← parse_column_names ts
          let v0 ← vGet row.values 0
          let t0 ← unwrapText v0
          if t0 = "table".toList then do
            let v1 ← vGet row.values 1
            let nm ← unwrapText v1
            let v3 ← vGet row.values 3
            let rp ← unwrapInt v3
            let more ← parse_tables rest
            .ok ({ name := nm, rootpage := rp, column_names := cols } :: more)
          else parse_tables rest) := rfl
    rw [hstep]
    simp only [vGet, hv4, ok_bind]
    cases v4 with
    | Text s =>
      simp only [Value.as_text, Bool.and_eq_true] at hmatch ⊢
      obtain ⟨hparens, hrow0⟩ := hmatch
      obtain ⟨a, ha⟩ : ∃ a, firstIdx '(' s = some a := by
        cases hfa : firstIdx '(' s with
        | none => rw [hfa] at hparens; exact absurd hparens (by simp)
        | some a => exact ⟨a, rfl⟩
      obtain ⟨b, hb⟩ : ∃ b, lastIdx ')' s = some b := by
        cases hfb : lastIdx ')' s with
        | none =>
          rw [hfb] at hparens
          cases hfa2 : firstIdx '(' s <;> rw [hfa2] at hparens <;>
            exact absurd hparens (by simp)
        | some b => exact ⟨b, rfl⟩
      rw [ha, hb] at hparens
      have hab : a + 1 ≤ b := by simpa using hparens
      rw [parse_column_names_eq_claim s a b ha hb hab]
      simp only [ok_bind]
      obtain ⟨v0, hv0⟩ : ∃ v0, row.values[0]? = some v0 := by
        rw [List.getElem?_eq_getElem (by omega)]
        exact ⟨_, rfl⟩
      simp only [hv0] at hrow0
      simp only [vGet, hv0, ok_bind]
      cases v0 with
      | Text t0 =>
        simp only [unwrapText, Value.as_text, ok_bind]
        by_cases ht0 : t0 = "table".toList
        · rw [if_pos ht0]
          rw [ht0] at hrow0
          simp only [decide_eq_true_eq, Bool.not_eq_true', Bool.or_eq_true,
            Bool.and_eq_true, decide_eq_true_eq] at hrow0
          have hrow0' := hrow0.resolve_left (by simp)
          obtain ⟨h1, h3⟩ := hrow0'
          obtain ⟨v1, hv1, hv1t⟩ : ∃ v1, row.values[1]? = some v1 ∧ v1.as_text.isSome := by
            cases hg1 : row.values[1]? with
            | none => rw [hg1] at h1; exact absurd h1 (by simp)
            | some v1 => rw [hg1] at h1; exact ⟨v1, rfl, by simpa using h1⟩
          obtain ⟨v3, hv3, hv3i⟩ : ∃ v3, row.values[3]? = some v3 ∧ v3.as_integer.isSome := by
            cases hg3 : row.values[3]? with
            | none => rw [hg3] at h3; exact absurd h3 (by simp)
            | some v3 => rw [hg3] at h3; exact ⟨v3, rfl, by simpa using h3⟩
          obtain ⟨nm, hnm⟩ := Option.isSome_iff_exists.mp hv1t
          obtain ⟨rp, hrp⟩ := Option.isSome_iff_exists.mp hv3i
          have hv1t2 : v1 = .Text nm := by
            cases v1 <;> simp only [Value.as_text, Option.some.injEq,
              reduceCtorEq] at hnm
            simp [hnm]
          have hv3i2 : v3 = .Integer rp := by
            cases v3 <;> simp only [Value.as_integer, Option.some.injEq,
              reduceCtorEq] at hrp
            simp [hrp]
          subst hv1t2 hv3i2
          simp only [vGet, hv1, ok_bind, unwrapText, Value.as_text, hv3, unwrapInt,
            Value.as_integer]
          rw [hrest]
          simp only [ok_bind]
          have hct : claimTableOf row =
              some ⟨nm, rp, claimCols ((s.drop (a + 1)).take (b - (a + 1)))⟩ := by
            simp only [claimTableOf, hv4, hv0]
            rw [if_pos ht0]
            simp only [hv1, hv3, claimColumnNames_eq s a b ha hb hab]
          rw [List.filterMap_cons, hct]
        · rw [if_neg ht0]
          have hct : claimTableOf row = none := by
            simp only [claimTableOf, hv4, hv0]
            rw [if_neg ht0]
          rw [List.filterMap_cons, hct]
          exact hrest
      | Null => exact absurd hrow0 (by simp)
      | Integer i0 => exact absurd hrow0 (by simp)
      | Float f0 => exact absurd hrow0 (by simp)
      | Blob bl => exact absurd hrow0 (by simp)
    | Null =>
      have hct : claimTableOf row = none := by simp [claimTableOf, hv4]
      simp only [Value.as_text, List.filterMap_cons, hct]
      exact hrest
    | Integer i0 =>
      have hct : claimTableOf row = none := by simp [claimTableOf, hv4]
      simp only [Value.as_text, List.filterMap_cons, hct]
      exact hrest
    | Float f0 =>
      have hct : claimTableOf row = none := by simp [claimTableOf, hv4]
      simp only [Value.as_text, List.filterMap_cons, hct]
      exact hrest
    | Blob bl =>
      have hct : claimTableOf row = none := by simp [claimTableOf, hv4]
      simp only [Value.as_text, List.filterMap_cons, hct]
      exact hrest

/-- Claim C7 (amended, witness): a two-row catalog — a `"table"` row
whose definition text carries true columns and a FOREIGN KEY line, and
an `"index"` row — yields exactly one `Table`, with the constraint line
excluded and declaration order preserved. -/
theorem c7_parse_tables_catalog_witness :
    parse_tables
      [⟨1, [.Text ("table".toList), .Text ("t".toList), .Text ("t".toList), .Integer 2,
        .Text ("CREATE TABLE t(a INTEGER, b TEXT, FOREIGN KEY (a) REFERENCES x(a))".toList)]⟩,
       ⟨2, [.Text ("index".toList), .Text ("i".toList), .Text ("t".toList), .Integer 3,
        .Text ("CREATE INDEX i ON t(a)".toList)]⟩] =
      .ok [⟨"t".toList, 2, [['a'], ['b']]⟩] := by
  have h := c7_parse_tables_catalog
    [⟨1, [.Text ("table".toList), .Text ("t".toList), .Text ("t".toList), .Integer 2,
      .Text ("CREATE TABLE t(a INTEGER, b TEXT, FOREIGN KEY (a) REFERENCES x(a))".toList)]⟩,
     ⟨2, [.Text ("index".toList), .Text ("i".toList), .Text ("t".toList), .Integer 3,
      .Text ("CREATE INDEX i ON t(a)".toList)]⟩] (by decide)
  exact h.trans (by decide)

/-! ## Claims C8 and C10: the query executor. -/

lemma execute_unfold (file : List Nat) (ps : Nat) (tables : List Table)
    (q : List Char) (fuel : Nat) :
    execute file ps tables q fuel = (do
      let table_name ← pGet (splitWs q)
        (((positionOf ("FROM".toList) (splitWs q)).getD 0) + 1)
      let condition ← pGet (splitWs q)
        (((positionOf ("SELECT".toList) (splitWs q)).getD 0) + 1)
      if condition = "*".toList then
        match tables.find? (fun t => t.name == table_name) with
        | some t => do
          let rows ← traverse file ps fuel ((t.rootpage % (2 : Int) ^ 32).toNat) []
          .ok (t.column_names, rows)
        | none => .ok ([], [])
      else .ok ([], [])) := rfl

/-- Claim C8: the executor takes the token after the (first) SELECT as
the projection and the token after the (first) FROM as the table name;
a projection other than a bare `*`, or a table name matching no catalog
entry, yields the empty column list and empty rows with no error; a `*`
projection over a cataloged table yields that table's column names
paired with the full traversal of its root page. -/
theorem c8_execute_projection_and_table (file : List Nat) (ps fuel : Nat)
    (tables : List Table) (q : List Char) (i j : Nat) (proj tname : List Char)
    (hsel : positionOf ("SELECT".toList) (splitWs q) = some i)
    (hfrom : positionOf ("FROM".toList) (splitWs q) = some j)
    (hp : (splitWs q)[i + 1]? = some proj)
    (ht : (splitWs q)[j + 1]? = some tname) :
    ((proj ≠ "*".toList ∨ tables.find? (fun t => t.name == tname) = none) →
      execute file ps tables q fuel = .ok ([], []))
    ∧ (∀ t, proj = "*".toList → tables.find? (fun t2 => t2.name == tname) = some t →
      execute file ps tables q fuel =
        rmap (fun rows => (t.column_names, rows))
          (traverse file ps fuel ((t.rootpage % (2 : Int) ^ 32).toNat) [])) := by
  rw [execute_unfold, hsel, hfrom]
  simp only [Option.getD_some, pGet, hp, ht, ok_bind]
  constructor
  · intro hcase
    by_cases hstar : proj = "*".toList
    · rw [if_pos hstar]
      rcases hcase with hc | hc
      · exact absurd hstar hc
      · rw [hc]
    · rw [if_neg hstar]
  · intro t hstar hfind
    rw [if_pos hstar, hfind]
    have hbind : ∀ x : Res (List Row),
        (x >>= fun rows => Res.ok (t.column_names, rows)) =
          rmap (fun rows => (t.column_names, rows)) x := by
      intro x
      cases x with
      | ok a => rfl
      | err e => rfl
    exact hbind _

/-- Claim C8 (witness): on the concrete tree file, `SELECT * FROM
albums` over a catalog mapping `albums` to root page 2 returns the
declared column and the leaf row, while `SELECT x FROM albums` silently
returns empty columns and rows. -/
theorem c8_execute_witness :
    execute treeFile 512 [⟨"albums".toList, 2, [['a']]⟩]
      ("SELECT * FROM albums".toList) 1 = .ok ([['a']], [⟨1, [.Integer 7]⟩])
    ∧ execute treeFile 512 [⟨"albums".toList, 2, [['a']]⟩]
      ("SELECT x FROM albums".toList) 1 = .ok ([], []) := by
  constructor
  · have h := (c8_execute_projection_and_table treeFile 512 1
      [⟨"albums".toList, 2, [['a']]⟩] ("SELECT * FROM albums".toList) 0 2
      ("*".toList) ("albums".toList) (by decide) (by decide) (by decide) (by decide)).2
    exact (h ⟨"albums".toList, 2, [['a']]⟩ rfl (by decide)).trans (by decide)
  · have h := (c8_execute_projection_and_table treeFile 512 1
      [⟨"albums".toList, 2, [['a']]⟩] ("SELECT x FROM albums".toList) 0 2
      ("x".toList) ("albums".toList) (by decide) (by decide) (by decide) (by decide)).1
    exact h (Or.inl (by decide))

/-- Claim C10 (counterexample): the claim asserts that every query whose
last whitespace-delimited token is the exact token FROM panics on an
out-of-bounds access.  In `SELECT * FROM t FROM` the last token is FROM,
yet `execute` returns the empty result without any panic, because
`position()` finds the FIRST occurrence of FROM, whose successor `t`
exists. -/
theorem c10_counterexample_trailing_from_no_panic :
    execute [] 512 [] ("SELECT * FROM t FROM".toList) 1 = .ok ([], []) := by decide

/-- Claim C10 (amended): the executor indexes the token array
unconditionally; when the FIRST occurrence of FROM is the last token,
or the FIRST occurrence of SELECT is the last token, or FROM is absent
from a query of fewer than two tokens, the unchecked access panics
out of bounds; and when FROM is absent (with the accesses in bounds)
its position defaults to 0, so the SECOND token of the query is
silently used as the table name. -/
theorem c10_unchecked_query_indexing (file : List Nat) (ps fuel : Nat)
    (tables : List Table) (q : List Char) :
    (∀ j, positionOf ("FROM".toList) (splitWs q) = some j →
      (splitWs q).length = j + 1 →
      execute file ps tables q fuel = .err .outOfBounds)
    ∧ (∀ i, positionOf ("SELECT".toList) (splitWs q) = some i →
      (splitWs q).length = i + 1 →
      execute file ps tables q fuel = .err .outOfBounds)
    ∧ (positionOf ("FROM".toList) (splitWs q) = none → (splitWs q).length < 2 →
      execute file ps tables q fuel = .err .outOfBounds)
    ∧ (∀ w, positionOf ("FROM".toList) (splitWs q) = none →
      (splitWs q)[1]? = some w →
      ∀ i proj, positionOf ("SELECT".toList) (splitWs q) = some i →
        (splitWs q)[i + 1]? = some proj →
        ((proj ≠ "*".toList ∨ tables.find? (fun t => t.name == w) = none) →
          execute file ps tables q fuel = .ok ([], []))
        ∧ (∀ t, proj = "*".toList → tables.find? (fun t2 => t2.name == w) = some t →
          execute file ps tables q fuel =
            rmap (fun rows => (t.column_names, rows))
              (traverse file ps fuel ((t.rootpage % (2 : Int) ^ 32).toNat) []))) := by
  refine ⟨?_, ?_, ?_, ?_⟩
  · intro j hfrom hlast
    rw [execute_unfold, hfrom]
    have hnone : (splitWs q)[j + 1]? = none :=
      List.getElem?_eq_none (by omega)
    simp only [Option.getD_some, pGet, hnone, err_bind]
  · intro i hsel hlast
    rw [execute_unfold, hsel]
    simp only [Option.getD_some]
    cases htn : (splitWs q)[(positionOf ("FROM".toList) (splitWs q)).getD 0 + 1]? with
    | none => simp only [pGet, htn, err_bind]
    | some tn =>
      have hnone : (splitWs q)[i + 1]? = none :=
        List.getElem?_eq_none (by omega)
      simp only [pGet, htn, hnone, ok_bind, err_bind]
  · intro hfrom hshort
    rw [execute_unfold, hfrom]
    have hnone : (splitWs q)[0 + 1]? = none :=
      List.getElem?_eq_none (by omega)
    simp only [Option.getD_none, pGet, hnone, err_bind]
  · intro w hfrom hw i proj hsel hp
    rw [execute_unfold, hsel, hfrom]
    simp only [Option.getD_none, Option.getD_some, pGet, hw, hp, ok_bind]
    constructor
    · intro hcase
      by_cases hstar : proj = "*".toList
      · rw [if_pos hstar]
        rcases hcase with hc | hc
        · exact absurd hstar hc
        · rw [hc]
      · rw [if_neg hstar]
    · intro t hstar hfind
      rw [if_pos hstar, hfind]
      have hbind : ∀ x : Res (List Row),
          (x >>= fun rows => Res.ok (t.column_names, rows)) =
            rmap (fun rows => (t.column_names, rows)) x := by
        intro x
        cases x with
        | ok a => rfl
        | err e => rfl
      exact hbind _

/-- Claim C10 (amended, witness): `SELECT * FROM` (first FROM last)
panics out of bounds, and with FROM absent in `SELECT * mytable` the
second token `*` is used as the table name, so a catalog entry literally
named `*` is traversed. -/
theorem c10_unchecked_query_indexing_witness :
    execute [] 512 [] ("SELECT * FROM".toList) 1 = .err .outOfBounds
    ∧ execute treeFile 512 [⟨"*".toList, 2, []⟩] ("SELECT * mytable".toList) 1 =
        .ok ([], [⟨1, [.Integer 7]⟩]) := by
  constructor
  · exact (c10_unchecked_query_indexing [] 512 1 [] ("SELECT * FROM".toList)).1
      2 (by decide) (by decide)
  · have h := (c10_unchecked_query_indexing treeFile 512 1 [⟨"*".toList, 2, []⟩]
      ("SELECT * mytable".toList)).2.2.2 ("*".toList) (by decide) (by decide)
      0 ("*".toList) (by decide) (by decide)
    exact (h.2 ⟨"*".toList, 2, []⟩ rfl (by decide)).trans (by decide)

end SqliteClone
